import Mathlib

/-!
# Verification of the ubip single-producer/single-consumer circular buffer

This file is a shallow embedding of `include/ubip/buffer.hpp` and proofs of the
spec's claims about it.

Modelling choices:
* The C++ `control_block<T>` holds the capacity, a storage pointer, and the
  three shared positions `read_`, `write_`, `watermark_`.  The positions and
  the capacity are embedded as a record of naturals; the storage region is
  modelled separately as a `List α`, and a `span` (the C++ `stl::span<T>`
  obtained via `const_span`/`mut_span`, i.e. `buffer_ + offset` with a length)
  is embedded as the pair of its base offset and its length.
* `size_t` values are embedded as unbounded naturals, with `-` the truncated
  natural subtraction.  Every subtraction performed by the code on reachable
  states is underflow-free (proved via the reachability invariant below).
* Each member function reads each atomic position at most once into a local
  and works on those locals; since the embedded control block value is
  immutable during a call, the locals are inlined as field accesses.
* The atomic load/store qualifiers have no sequential content; the embedding
  gives the sequential (interleaved at operation granularity) semantics.
-/

namespace ubip

namespace detail

/-- `detail::max` from the source. -/
def max (a b : Nat) : Nat := if a > b then a else b

/-- `detail::min` from the source. -/
def min (a b : Nat) : Nat := if a < b then a else b

/-- The shared control block of `buffer.hpp`: the immutable capacity plus the
`read_`/`write_`/`watermark_` positions (all initialized to 0 by the source).
The storage pointer `buffer_` is modelled outside this record; spans hand out
offsets relative to it. -/
structure control_block where
  capacity : Nat
  read : Nat
  write : Nat
  watermark : Nat
deriving DecidableEq

end detail

/-- A contiguous region of the storage: base offset plus element count.  This
is the embedding of the `stl::span` values produced by `const_span`/`mut_span`
(`buffer_ + start_offset` with length `size`); a default-constructed span
(`return {}` in the source) is `⟨0, 0⟩`, whose length is 0. -/
structure span where
  offset : Nat
  size : Nat
deriving DecidableEq

/-- `control_block::const_span(start_offset, size)`. -/
def detail.control_block.const_span (_cb : detail.control_block)
    (start_offset size : Nat) : span :=
  ⟨start_offset, size⟩

/-- `control_block::mut_span(start_offset, size)`. -/
def detail.control_block.mut_span (_cb : detail.control_block)
    (start_offset size : Nat) : span :=
  ⟨start_offset, size⟩

/-- `buffer_reader::values`: the currently readable contiguous region.  A pure
function of the control block (the C++ method performs loads only, no stores). -/
def buffer_reader.values (cb : detail.control_block) : span :=
  if cb.write > cb.read then
    cb.const_span cb.read (cb.write - cb.read)
  else if cb.write < cb.read then
    if cb.read = cb.watermark then
      cb.const_span 0 cb.write
    else
      cb.const_span cb.read (cb.watermark - cb.read)
  else
    ⟨0, 0⟩

/-- `buffer_reader::consume(amount)`: returns the updated control block (the
C++ method stores the new `read_` position). -/
def buffer_reader.consume (cb : detail.control_block) (amount : Nat) :
    detail.control_block :=
  if cb.read = cb.write then
    cb
  else if cb.write > cb.read then
    { cb with read := detail.min (cb.read + amount) cb.write }
  else
    { cb with read :=
        (cb.read + detail.min (cb.watermark - cb.read + cb.write) amount) %
          cb.watermark }

/-- `buffer_writer::prepare(amount)`: takes the writer's `prepared_` state and
returns the updated control block, the updated `prepared_`, and the returned
span (`⟨0, 0⟩`, an empty span, on failure, matching `return {}`). -/
def buffer_writer.prepare (cb : detail.control_block) (prepared : Nat)
    (amount : Nat) : detail.control_block × Nat × span :=
  if prepared ≠ 0 then
    (cb, prepared, ⟨0, 0⟩)
  else if cb.write ≥ cb.read then
    if cb.capacity - cb.write ≥ amount then
      ({ cb with watermark := cb.write + amount }, amount,
        cb.mut_span cb.write amount)
    else if cb.read > amount then
      ({ cb with watermark := cb.write, write := 0 }, amount,
        cb.mut_span 0 amount)
    else
      (cb, prepared, ⟨0, 0⟩)
  else if cb.write + amount < cb.read then
    (cb, amount, cb.mut_span cb.write amount)
  else
    (cb, prepared, ⟨0, 0⟩)

/-- `buffer_writer::commit(amount)`: takes the writer's `prepared_` state and
returns the updated control block and the updated `prepared_`. -/
def buffer_writer.commit (cb : detail.control_block) (prepared : Nat)
    (amount : Nat) : detail.control_block × Nat :=
  if prepared = 0 ∨ amount = 0 then
    (cb, prepared)
  else
    ({ cb with write := cb.write + detail.min amount prepared },
      prepared - detail.min amount prepared)

/-- Combined state of the single producer/consumer pair: the shared control
block plus the writer's private `prepared_` length. -/
structure State where
  cb : detail.control_block
  prepared : Nat
deriving DecidableEq

/-- The operations a producer/consumer pair can perform on the shared state.
`values` is included for completeness; it performs no store. -/
inductive Op where
  | prepare (amount : Nat)
  | commit (amount : Nat)
  | consume (amount : Nat)
  | values

/-- Effect of one operation on the combined state. -/
def State.step (s : State) : Op → State
  | Op.prepare a =>
    ⟨(buffer_writer.prepare s.cb s.prepared a).1,
      (buffer_writer.prepare s.cb s.prepared a).2.1⟩
  | Op.commit a =>
    ⟨(buffer_writer.commit s.cb s.prepared a).1,
      (buffer_writer.commit s.cb s.prepared a).2⟩
  | Op.consume a => ⟨buffer_reader.consume s.cb a, s.prepared⟩
  | Op.values => s

/-- State of a fresh `buffer<T, cap>` right after `take_reader_writer`:
all three positions 0, nothing prepared. -/
def initState (cap : Nat) : State := ⟨⟨cap, 0, 0, 0⟩, 0⟩

/-- Run a sequence of operations. -/
def exec (s : State) (ops : List Op) : State := ops.foldl State.step s

/-- A state is reachable when some sequence of `prepare`/`commit`/`consume`/
`values` calls produces it from a fresh buffer. -/
def Reach (cap : Nat) (s : State) : Prop :=
  ∃ ops : List Op, exec (initState cap) ops = s

/-- Inductive invariant of reachable states: capacity is fixed; the write
position plus the outstanding reservation stays within capacity; the read
position stays within capacity; and in a wrapped state (`write < read`) the
whole reserved-or-written front region stays strictly below `read`, and
`read ≤ watermark ≤ capacity`. -/
def Inv (cap : Nat) (s : State) : Prop :=
  s.cb.capacity = cap ∧
  s.cb.write + s.prepared ≤ cap ∧
  s.cb.read ≤ cap ∧
  (s.cb.write < s.cb.read →
    s.cb.write + s.prepared < s.cb.read ∧
    s.cb.read ≤ s.cb.watermark ∧ s.cb.watermark ≤ cap)

/-- The total number of unread elements, per the spec's wording: `write - read`
when not wrapped, `(watermark - read) + write` when wrapped. -/
def availableLen (cb : detail.control_block) : Nat :=
  if cb.read ≤ cb.write then cb.write - cb.read
  else cb.watermark - cb.read + cb.write

/-- The readable region exactly as claim C4 words it: `[read, write)` when
`write > read`; empty when `write == read`; `[read, watermark)` when
`write < read` and `read ≠ watermark`; `[0, write)` when `write < read` and
`read = watermark`. -/
def values_spec (cb : detail.control_block) : span :=
  if cb.write > cb.read then
    ⟨cb.read, cb.write - cb.read⟩
  else if cb.write = cb.read then
    ⟨0, 0⟩
  else if cb.read ≠ cb.watermark then
    ⟨cb.read, cb.watermark - cb.read⟩
  else
    ⟨0, cb.write⟩

/-- `prepare` with no pending reservation, exactly as claim C2 words it:
tail placement when `write ≥ read` and `capacity - write ≥ amount`; wrap to
offset 0 when `write ≥ read` and `read > amount`; front placement when
`write < read` and `write + amount < read`; otherwise fail with an empty
region. -/
def prepare_spec (cb : detail.control_block) (amount : Nat) :
    detail.control_block × Nat × span :=
  if cb.write ≥ cb.read ∧ cb.capacity - cb.write ≥ amount then
    ({ cb with watermark := cb.write + amount }, amount, ⟨cb.write, amount⟩)
  else if cb.write ≥ cb.read ∧ cb.read > amount then
    ({ cb with watermark := cb.write, write := 0 }, amount, ⟨0, amount⟩)
  else if cb.write < cb.read ∧ cb.write + amount < cb.read then
    (cb, amount, ⟨cb.write, amount⟩)
  else
    (cb, 0, ⟨0, 0⟩)

/-- `consume` exactly as claim C3 words it: no-op when `read = write`;
`read := min (read + amount) write` when `write > read`; otherwise clamp
`amount` to `(watermark - read) + write` and `read := (read + clamped) %
watermark`. -/
def consume_spec (cb : detail.control_block) (amount : Nat) :
    detail.control_block :=
  if cb.read = cb.write then
    cb
  else if cb.write > cb.read then
    { cb with read := Nat.min (cb.read + amount) cb.write }
  else
    { cb with read :=
        (cb.read + Nat.min (cb.watermark - cb.read + cb.write) amount) %
          cb.watermark }

/-- The failure condition named by claim C7: a prior reservation is still
pending, or (no wrap in effect) both the tail space and the front region are
too small, or (wrapped) the gap up to `read` is too small. -/
def prepare_fail_condition (cb : detail.control_block) (prepared amount : Nat) :
    Prop :=
  prepared ≠ 0 ∨
  (cb.read ≤ cb.write ∧ cb.capacity - cb.write < amount ∧ cb.read ≤ amount) ∨
  (cb.write < cb.read ∧ cb.read ≤ cb.write + amount)

/-- The producer writing `vs` into a reserved region: bytes of the storage
covered by the span are replaced (at most `sp.size` elements are written, the
region's extent). -/
def span.writeInto {α : Type} (sp : span) (store : List α) (vs : List α) :
    List α :=
  store.take sp.offset ++ vs.take sp.size ++ store.drop (sp.offset + sp.size)

/-- The consumer reading the elements covered by a span out of the storage. -/
def span.readFrom {α : Type} (sp : span) (store : List α) : List α :=
  (store.drop sp.offset).take sp.size

/-- One producer/consumer lockstep cycle per claim C1, for each requested
`(amount, elements)` pair: `prepare amount`; write the elements into the
returned region; `commit amount`; observe `values()`; `consume amount`.
Returns the list of (region returned by prepare, elements observed) pairs. -/
def runCycles {α : Type} (s : State) (store : List α) :
    List (Nat × List α) → List (span × List α)
  | [] => []
  | c :: rest =>
    let pr := buffer_writer.prepare s.cb s.prepared c.1
    let store1 := pr.2.2.writeInto store c.2
    let co := buffer_writer.commit pr.1 pr.2.1 c.1
    let seen := (buffer_reader.values co.1).readFrom store1
    (pr.2.2, seen) :: runCycles ⟨buffer_reader.consume co.1 c.1, co.2⟩ store1 rest

/-- Claim C1 exactly as stated, for a given capacity: for every sequence of
lockstep cycles with amounts in `(0, capacity]`, every prepare returns a
non-empty region of the requested length and the observed elements are the
written ones. -/
def claim1_statement (cap : Nat) : Prop :=
  ∀ cs : List (Nat × List Nat),
    (∀ c ∈ cs, 0 < c.1 ∧ c.1 ≤ cap ∧ c.2.length = c.1) →
    List.Forall₂
      (fun c o => (0 < (Prod.fst o).size ∧ (Prod.fst o).size = c.1) ∧
        Prod.snd o = c.2)
      cs (runCycles (initState cap) (List.replicate cap 0) cs)

section lemmas

theorem min_eq (a b : Nat) : detail.min a b = Nat.min a b := by
  unfold detail.min Nat.min
  split_ifs with h h2 <;> omega

theorem mod_of_lt_two_mul {x m : Nat} (hm : 0 < m) (hx : x < 2 * m) :
    x % m = if x < m then x else x - m := by
  have h0 : 0 < m := hm
  split_ifs with h
  · exact Nat.mod_eq_of_lt h
  · rw [Nat.mod_eq_sub_mod (by omega), Nat.mod_eq_of_lt (by omega)]

theorem prepare_tail (cb : detail.control_block) (a : Nat)
    (h1 : cb.read ≤ cb.write) (h2 : a ≤ cb.capacity - cb.write) :
    buffer_writer.prepare cb 0 a =
      ({ cb with watermark := cb.write + a }, a, ⟨cb.write, a⟩) := by
  unfold buffer_writer.prepare detail.control_block.mut_span
  split_ifs <;> first | rfl | (exfalso ; omega)

theorem prepare_wrap (cb : detail.control_block) (a : Nat)
    (h1 : cb.read ≤ cb.write) (h2 : cb.capacity - cb.write < a)
    (h3 : a < cb.read) :
    buffer_writer.prepare cb 0 a =
      ({ cb with watermark := cb.write, write := 0 }, a, ⟨0, a⟩) := by
  unfold buffer_writer.prepare detail.control_block.mut_span
  split_ifs <;> first | rfl | (exfalso ; omega)

theorem prepare_front (cb : detail.control_block) (a : Nat)
    (h1 : cb.write < cb.read) (h2 : cb.write + a < cb.read) :
    buffer_writer.prepare cb 0 a = (cb, a, ⟨cb.write, a⟩) := by
  unfold buffer_writer.prepare detail.control_block.mut_span
  split_ifs <;> first | rfl | (exfalso ; omega)

theorem commit_run (cb : detail.control_block) (p a : Nat) (h1 : p ≠ 0)
    (h2 : a ≠ 0) :
    buffer_writer.commit cb p a =
      ({ cb with write := cb.write + detail.min a p }, p - detail.min a p) := by
  unfold buffer_writer.commit
  rw [if_neg (by omega)]

theorem consume_forward (cb : detail.control_block) (a : Nat)
    (h : cb.read < cb.write) :
    buffer_reader.consume cb a =
      { cb with read := detail.min (cb.read + a) cb.write } := by
  unfold buffer_reader.consume
  split_ifs <;> first | rfl | (exfalso ; omega)

theorem consume_wrapped (cb : detail.control_block) (a : Nat)
    (h : cb.write < cb.read) :
    buffer_reader.consume cb a =
      { cb with read :=
          (cb.read + detail.min (cb.watermark - cb.read + cb.write) a) %
            cb.watermark } := by
  unfold buffer_reader.consume
  split_ifs <;> first | rfl | (exfalso ; omega)

theorem values_forward (cb : detail.control_block) (h : cb.read < cb.write) :
    buffer_reader.values cb = ⟨cb.read, cb.write - cb.read⟩ := by
  unfold buffer_reader.values detail.control_block.const_span
  split_ifs <;> first | rfl | (exfalso ; omega)

theorem values_wrapped_at_watermark (cb : detail.control_block)
    (h1 : cb.write < cb.read) (h2 : cb.read = cb.watermark) :
    buffer_reader.values cb = ⟨0, cb.write⟩ := by
  unfold buffer_reader.values detail.control_block.const_span
  split_ifs <;> first | rfl | (exfalso ; omega)

theorem writeInto_length {α : Type} (off n : Nat) (store vs : List α)
    (hb : off + n ≤ store.length) (hv : n ≤ vs.length) :
    (span.writeInto ⟨off, n⟩ store vs).length = store.length := by
  unfold span.writeInto
  dsimp only
  rw [List.length_append, List.length_append, List.length_take,
    List.length_take, List.length_drop]
  rw [min_eq_left (show off ≤ store.length by omega), min_eq_left hv]
  omega

theorem readFrom_writeInto {α : Type} (off n : Nat) (store vs : List α)
    (hv : vs.length = n) (hb : off + n ≤ store.length) :
    span.readFrom ⟨off, n⟩ (span.writeInto ⟨off, n⟩ store vs) = vs := by
  unfold span.readFrom span.writeInto
  dsimp only
  have htk : vs.take n = vs := by
    rw [← hv]
    exact List.take_length vs
  have h1 : (store.take off).length = off := by
    rw [List.length_take]
    exact min_eq_left (by omega)
  rw [htk, List.append_assoc, List.drop_left' h1, List.take_left' hv]

theorem min_self_eq (a : Nat) : detail.min a a = a := by
  unfold detail.min
  split_ifs <;> omega

/-- Lockstep producer/consumer cycles from any at-rest empty state succeed
and observe the written elements, provided each requested amount fits twice
into the capacity. -/
theorem runCycles_ok {α : Type} (cs : List (Nat × List α)) (s : State)
    (store : List α) (hp : s.prepared = 0) (hrw : s.cb.read = s.cb.write)
    (hwc : s.cb.write ≤ s.cb.capacity) (hs : store.length = s.cb.capacity)
    (hcs : ∀ c ∈ cs, 0 < c.1 ∧ 2 * c.1 ≤ s.cb.capacity ∧ c.2.length = c.1) :
    List.Forall₂
      (fun c o => (0 < (Prod.fst o).size ∧ (Prod.fst o).size = c.1) ∧
        Prod.snd o = c.2) cs (runCycles s store cs) := by
  induction cs generalizing s store with
  | nil => exact List.Forall₂.nil
  | cons c rest ih =>
    obtain ⟨a, vs⟩ := c
    obtain ⟨⟨cap, r, w, m⟩, p⟩ := s
    dsimp only at hp hrw hwc hs hcs
    subst hp
    subst hrw
    obtain ⟨ha0, ha2, halen⟩ := hcs ⟨a, vs⟩ (List.mem_cons_self _ _)
    dsimp only at ha0 ha2 halen
    rcases Nat.lt_or_ge (cap - r) a with hcase | hcase
    · -- tail space too small: wraparound placement at offset 0
      simp only [runCycles]
      rw [prepare_wrap ⟨cap, r, r, m⟩ a (Nat.le_refl r)
        (show cap - r < a by omega) (show a < r by omega)]
      dsimp only
      rw [commit_run ⟨cap, r, 0, r⟩ a a (by omega) (by omega)]
      rw [min_self_eq a, Nat.sub_self]
      dsimp only
      rw [Nat.zero_add]
      rw [values_wrapped_at_watermark ⟨cap, r, a, r⟩ (show a < r by omega) rfl]
      rw [readFrom_writeInto 0 a store vs halen (by omega)]
      rw [consume_wrapped ⟨cap, r, a, r⟩ a (show a < r by omega)]
      have hz : r - r + a = a := by omega
      rw [hz, min_self_eq a, Nat.add_mod_left,
        Nat.mod_eq_of_lt (show a < r by omega)]
      refine List.Forall₂.cons ⟨⟨ha0, rfl⟩, rfl⟩ ?_
      exact ih ⟨⟨cap, a, a, r⟩, 0⟩ _ rfl rfl (show a ≤ cap by omega)
        ((writeInto_length 0 a store vs (by omega) (by omega)).trans hs)
        (fun c hc => hcs c (List.mem_cons_of_mem _ hc))
    · -- tail placement at offset write
      simp only [runCycles]
      rw [prepare_tail ⟨cap, r, r, m⟩ a (Nat.le_refl r)
        (show a ≤ cap - r by omega)]
      dsimp only
      rw [commit_run ⟨cap, r, r, r + a⟩ a a (by omega) (by omega)]
      rw [min_self_eq a, Nat.sub_self]
      dsimp only
      rw [values_forward ⟨cap, r, r + a, r + a⟩ (show r < r + a by omega)]
      have hralen : r + a - r = a := by omega
      rw [hralen]
      rw [readFrom_writeInto r a store vs halen (by omega)]
      rw [consume_forward ⟨cap, r, r + a, r + a⟩ a (show r < r + a by omega)]
      rw [min_self_eq (r + a)]
      refine List.Forall₂.cons ⟨⟨ha0, rfl⟩, rfl⟩ ?_
      exact ih ⟨⟨cap, r + a, r + a, r + a⟩, 0⟩ _ rfl rfl
        (show r + a ≤ cap by omega)
        ((writeInto_length r a store vs (by omega) (by omega)).trans hs)
        (fun c hc => hcs c (List.mem_cons_of_mem _ hc))

theorem inv_init (cap : Nat) : Inv cap (initState cap) := by
  refine ⟨rfl, by simp [initState], by simp [initState], ?_⟩
  intro h
  simp [initState] at h

theorem inv_step (cap : Nat) (s : State) (o : Op) (h : Inv cap s) :
    Inv cap (s.step o) := by
  obtain ⟨⟨c, r, w, m⟩, p⟩ := s
  obtain ⟨hcap, h1, h2, h3⟩ := h
  dsimp only at hcap h1 h2 h3
  cases o with
  | values => exact ⟨hcap, h1, h2, h3⟩
  | prepare a =>
    simp only [State.step, buffer_writer.prepare, detail.control_block.mut_span]
    split_ifs with g1 g2 g3 g4 g5 <;>
      exact ⟨hcap, by dsimp only ; omega, by dsimp only ; omega,
        by dsimp only ; omega⟩
  | commit a =>
    simp only [State.step, buffer_writer.commit, detail.min]
    split_ifs with g1 g2 <;>
      exact ⟨hcap, by dsimp only ; omega, by dsimp only ; omega,
        by dsimp only ; omega⟩
  | consume a =>
    simp only [State.step, buffer_reader.consume, detail.min]
    split_ifs with g1 g2 g3 g4
    · exact ⟨hcap, h1, h2, h3⟩
    · exact ⟨hcap, by dsimp only ; omega, by dsimp only ; omega,
        by dsimp only ; omega⟩
    · exact ⟨hcap, by dsimp only ; omega, by dsimp only ; omega,
        by dsimp only ; omega⟩
    · have hw : w < r := by omega
      obtain ⟨k1, k2, k3⟩ := h3 hw
      have hm : 0 < m := by omega
      have hx : r + (m - r + w) < 2 * m := by omega
      refine ⟨hcap, by dsimp only ; omega, ?_, ?_⟩ <;>
        dsimp only <;> rw [mod_of_lt_two_mul hm hx] <;> split_ifs with hc <;>
        omega
    · have hw : w < r := by omega
      obtain ⟨k1, k2, k3⟩ := h3 hw
      have hm : 0 < m := by omega
      have hx : r + a < 2 * m := by omega
      refine ⟨hcap, by dsimp only ; omega, ?_, ?_⟩ <;>
        dsimp only <;> rw [mod_of_lt_two_mul hm hx] <;> split_ifs with hc <;>
        omega

theorem exec_inv (cap : Nat) (ops : List Op) (s : State) (h : Inv cap s) :
    Inv cap (exec s ops) := by
  induction ops generalizing s with
  | nil => exact h
  | cons o rest ih =>
    show Inv cap (exec (s.step o) rest)
    exact ih _ (inv_step cap s o h)

theorem reach_inv (cap : Nat) (s : State) (h : Reach cap s) : Inv cap s := by
  obtain ⟨ops, rfl⟩ := h
  exact exec_inv cap ops _ (inv_init cap)

end lemmas

/-- C1 (amended): for every sequence of lockstep cycles `prepare a`; write `a`
elements; `commit a`; `consume a` from a fresh buffer, with every amount `a`
satisfying `0 < a` and `2 * a ≤ capacity`, each prepare returns a non-empty
region of length exactly `a` and `values()` before each consume observes
exactly the elements written in that cycle, in order, with no loss or
duplication.  The claim as stated (requiring only `a ≤ capacity`) is false:
see `claim1_counterexample`. -/
theorem claim1 : ∀ (α : Type) (cap : Nat) (fill : α)
    (cs : List (Nat × List α)),
    (∀ c ∈ cs, 0 < c.1 ∧ 2 * c.1 ≤ cap ∧ c.2.length = c.1) →
    List.Forall₂
      (fun c o => (0 < (Prod.fst o).size ∧ (Prod.fst o).size = c.1) ∧
        Prod.snd o = c.2)
      cs (runCycles (initState cap) (List.replicate cap fill) cs) := by
  intro α cap fill cs h
  exact runCycles_ok cs (initState cap) _ rfl rfl (Nat.zero_le cap)
    (List.length_replicate cap fill) h

/-- Witness for C1: one cycle of amount 3 on a fresh capacity-10 buffer. -/
theorem claim1_witness :
    List.Forall₂
      (fun c o => (0 < (Prod.fst o).size ∧ (Prod.fst o).size = c.1) ∧
        Prod.snd o = c.2)
      [(3, [7, 8, 9])]
      (runCycles (initState 10) (List.replicate 10 0) [(3, [7, 8, 9])]) :=
  claim1 Nat 10 0 [(3, [7, 8, 9])] (by decide)

/-- Counterexample to C1 as stated: capacity 10, cycle amounts 5 then 7, both
in `(0, 10]`.  After the first cycle the buffer is empty at position 5; the
second `prepare 7` finds only 5 tail slots and no front room (`read = 5 ≤ 7`),
so it fails and returns an empty region instead of one of length 7. -/
theorem claim1_counterexample : ¬ claim1_statement 10 := by
  intro h
  have h2 := h [(5, [1, 2, 3, 4, 5]), (7, [1, 2, 3, 4, 5, 6, 7])] (by decide)
  have he : runCycles (initState 10) (List.replicate 10 0)
      [(5, [1, 2, 3, 4, 5]), (7, [1, 2, 3, 4, 5, 6, 7])] =
      [(⟨0, 5⟩, [1, 2, 3, 4, 5]), (⟨0, 0⟩, [])] := by decide
  rw [he] at h2
  rcases h2 with _ | ⟨hh, ht⟩
  rcases ht with _ | ⟨hbad, ht2⟩
  exact absurd hbad.1.1 (by decide)

/-- C2: with no reservation pending and a positive amount, `prepare` behaves
exactly as the claim's three-way case split (tail placement / wrap to offset 0
/ front placement), failing with an empty region in every other case. -/
theorem claim2 : ∀ (cb : detail.control_block) (amount : Nat), 0 < amount →
    buffer_writer.prepare cb 0 amount = prepare_spec cb amount := by
  intro cb a ha
  unfold buffer_writer.prepare prepare_spec detail.control_block.mut_span
  split_ifs <;> first | rfl | (exfalso ; omega)

/-- Witness for C2 at a concrete control block (capacity 10, read 2, write 5):
`prepare 3` takes the tail branch, setting the watermark to 8. -/
theorem claim2_witness :
    buffer_writer.prepare ⟨10, 2, 5, 0⟩ 0 3 = prepare_spec ⟨10, 2, 5, 0⟩ 3 ∧
    prepare_spec ⟨10, 2, 5, 0⟩ 3 = (⟨10, 2, 5, 8⟩, 3, ⟨5, 3⟩) :=
  ⟨claim2 ⟨10, 2, 5, 0⟩ 3 (by decide), by decide⟩

/-- C3: `consume` equals the claim's case description on every control block;
it never advances `read` past `write` when not wrapped; and on any reachable
state, consuming more than the available length leaves the buffer empty
(`read = write`) rather than failing. -/
theorem claim3 :
    (∀ (cb : detail.control_block) (amount : Nat),
      buffer_reader.consume cb amount = consume_spec cb amount) ∧
    (∀ (cb : detail.control_block) (amount : Nat), cb.read < cb.write →
      (buffer_reader.consume cb amount).read ≤ cb.write) ∧
    (∀ (cap : Nat) (s : State) (amount : Nat), Reach cap s →
      availableLen s.cb < amount →
      (buffer_reader.consume s.cb amount).read =
        (buffer_reader.consume s.cb amount).write) := by
  refine ⟨?_, ?_, ?_⟩
  · intro cb a
    unfold buffer_reader.consume consume_spec
    simp only [min_eq]
  · intro cb a h
    rw [consume_forward cb a h]
    show detail.min (cb.read + a) cb.write ≤ cb.write
    unfold detail.min
    split_ifs <;> omega
  · intro cap s a hre hav
    have hinv := reach_inv cap s hre
    obtain ⟨⟨c, r, w, m⟩, p⟩ := s
    obtain ⟨hcap, h1, h2, h3⟩ := hinv
    dsimp only at hcap h1 h2 h3 hav ⊢
    unfold availableLen at hav
    dsimp only at hav
    split_ifs at hav with hc
    · rcases Nat.eq_or_lt_of_le hc with hrw | hlt
      · subst hrw
        simp [buffer_reader.consume]
      · rw [consume_forward _ _ hlt]
        show detail.min (r + a) w = w
        unfold detail.min
        split_ifs <;> omega
    · obtain ⟨k1, k2, k3⟩ := h3 (by omega)
      rw [consume_wrapped ⟨c, r, w, m⟩ a (show w < r by omega)]
      show (r + detail.min (m - r + w) a) % m = w
      have hmin : detail.min (m - r + w) a = m - r + w := by
        unfold detail.min
        split_ifs <;> omega
      have hsum : r + (m - r + w) = m + w := by omega
      rw [hmin, hsum, Nat.add_mod_left]
      exact Nat.mod_eq_of_lt (by omega)

/-- Witness for C3 at the reachable state with read 0, write 5 (capacity 10):
consuming 9 > 5 available drains the buffer to `read = write = 5`. -/
theorem claim3_witness :
    (buffer_reader.consume
        (exec (initState 10) [Op.prepare 5, Op.commit 5]).cb 9).read =
      (buffer_reader.consume
        (exec (initState 10) [Op.prepare 5, Op.commit 5]).cb 9).write ∧
    (buffer_reader.consume
        (exec (initState 10) [Op.prepare 5, Op.commit 5]).cb 9).read = 5 :=
  ⟨claim3.2.2 10 _ 9 ⟨[Op.prepare 5, Op.commit 5], rfl⟩ (by decide), by decide⟩

/-- C4: `values` is a pure function of the control block (the embedding types
it as mutating nothing) and returns exactly the four-case region of the claim,
here packaged as the spec-side definition `values_spec`. -/
theorem claim4 : ∀ cb : detail.control_block,
    buffer_reader.values cb = values_spec cb := by
  intro cb
  unfold buffer_reader.values values_spec detail.control_block.const_span
  split_ifs <;> first | rfl | (exfalso ; omega)

/-- C5: on every reachable state, a successful `prepare` (non-empty returned
region) returns a region of exactly the requested length lying entirely inside
the storage: offset + length ≤ capacity. -/
theorem claim5 : ∀ (cap : Nat) (s : State) (amount : Nat), Reach cap s →
    0 < (buffer_writer.prepare s.cb s.prepared amount).2.2.size →
    (buffer_writer.prepare s.cb s.prepared amount).2.2.size = amount ∧
    (buffer_writer.prepare s.cb s.prepared amount).2.2.offset +
      (buffer_writer.prepare s.cb s.prepared amount).2.2.size ≤ cap := by
  intro cap s a hre hpos
  have hinv := reach_inv cap s hre
  obtain ⟨⟨c, r, w, m⟩, p⟩ := s
  obtain ⟨hcap, h1, h2, h3⟩ := hinv
  dsimp only at hcap h1 h2 h3 hpos ⊢
  unfold buffer_writer.prepare detail.control_block.mut_span at hpos ⊢
  split_ifs at hpos ⊢ with g1 g2 g3 g4 g5 <;>
    dsimp only at * <;>
    first | (exfalso ; omega) | exact ⟨rfl, by omega⟩

/-- Witness for C5 at the fresh capacity-10 buffer: `prepare 4` returns the
region at offset 0 of length 4, inside the storage. -/
theorem claim5_witness :
    (buffer_writer.prepare (initState 10).cb (initState 10).prepared 4).2.2.size
      = 4 ∧
    (buffer_writer.prepare (initState 10).cb
        (initState 10).prepared 4).2.2.offset +
      (buffer_writer.prepare (initState 10).cb
        (initState 10).prepared 4).2.2.size ≤ 10 :=
  claim5 10 (initState 10) 4 ⟨[], rfl⟩ (by decide)

/-- C6 (amended): on every reachable state at rest (no pending reservation)
the positions satisfy `read ≤ capacity` and `write ≤ capacity`.  The claimed
strict bounds fail: both positions reach `capacity` exactly (see
`claim6_counterexample`). -/
theorem claim6 : ∀ (cap : Nat) (s : State), Reach cap s → s.prepared = 0 →
    s.cb.read ≤ cap ∧ s.cb.write ≤ cap := by
  intro cap s hre hp
  obtain ⟨hcap, h1, h2, h3⟩ := reach_inv cap s hre
  omega

/-- Counterexample to C6 as stated: from a fresh capacity-10 buffer,
`prepare 10; commit 10` reaches a state at rest (nothing pending) with
`write = 10 = capacity`, violating `write < capacity`. -/
theorem claim6_counterexample :
    (exec (initState 10) [Op.prepare 10, Op.commit 10]).prepared = 0 ∧
    (exec (initState 10) [Op.prepare 10, Op.commit 10]).cb.capacity = 10 ∧
    ¬ (exec (initState 10) [Op.prepare 10, Op.commit 10]).cb.write < 10 := by
  decide

/-- Witness for C6 at the reachable at-rest state after `prepare 4; commit 4`
on a fresh capacity-10 buffer. -/
theorem claim6_witness :
    (exec (initState 10) [Op.prepare 4, Op.commit 4]).cb.read ≤ 10 ∧
    (exec (initState 10) [Op.prepare 4, Op.commit 4]).cb.write ≤ 10 :=
  claim6 10 _ ⟨[Op.prepare 4, Op.commit 4], rfl⟩ (by decide)

/-- C7: whenever `prepare` fails — a reservation is still pending, or neither
the tail space nor the front region has room — it returns an empty region and
leaves the control block and the pending length unchanged. -/
theorem claim7 : ∀ (cb : detail.control_block) (prepared amount : Nat),
    prepare_fail_condition cb prepared amount →
    buffer_writer.prepare cb prepared amount = (cb, prepared, ⟨0, 0⟩) := by
  intro cb p a h
  unfold prepare_fail_condition at h
  unfold buffer_writer.prepare detail.control_block.mut_span
  split_ifs <;> first | rfl | (exfalso ; omega)

/-- Witness for C7: capacity 10, read 0, write 8, nothing pending; `prepare 5`
has only 2 tail slots and no front room (`read = 0`), so it fails and changes
nothing. -/
theorem claim7_witness :
    buffer_writer.prepare ⟨10, 0, 8, 0⟩ 0 5 = (⟨10, 0, 8, 0⟩, 0, ⟨0, 0⟩) :=
  claim7 ⟨10, 0, 8, 0⟩ 0 5 (Or.inr (Or.inl (by decide)))

/-- C8: `commit` is a no-op when nothing is pending or the amount is 0;
otherwise it clamps the amount to the pending length, advances `write` by
exactly the clamped amount and decreases the pending length by the same; and
while the pending length is non-zero every subsequent `prepare` fails. -/
theorem claim8 :
    (∀ (cb : detail.control_block) (prepared : Nat),
      buffer_writer.commit cb prepared 0 = (cb, prepared)) ∧
    (∀ (cb : detail.control_block) (amount : Nat),
      buffer_writer.commit cb 0 amount = (cb, 0)) ∧
    (∀ (cb : detail.control_block) (prepared amount : Nat), prepared ≠ 0 →
      amount ≠ 0 →
      buffer_writer.commit cb prepared amount =
        ({ cb with write := cb.write + Nat.min amount prepared },
          prepared - Nat.min amount prepared)) ∧
    (∀ (cb : detail.control_block) (prepared amount : Nat), prepared ≠ 0 →
      buffer_writer.prepare cb prepared amount = (cb, prepared, ⟨0, 0⟩)) := by
  refine ⟨?_, ?_, ?_, ?_⟩
  · intro cb p
    unfold buffer_writer.commit
    rw [if_pos (Or.inr rfl)]
  · intro cb a
    unfold buffer_writer.commit
    rw [if_pos (Or.inl rfl)]
  · intro cb p a hp ha
    rw [commit_run cb p a hp ha, min_eq]
  · intro cb p a hp
    unfold buffer_writer.prepare
    rw [if_pos hp]

/-- Witness for C8: with 4 pending, `commit 2` advances write 3 → 5 and leaves
2 pending; with 2 still pending, `prepare 6` fails and changes nothing. -/
theorem claim8_witness :
    buffer_writer.commit ⟨10, 0, 3, 5⟩ 4 2 = (⟨10, 0, 5, 5⟩, 2) ∧
    buffer_writer.prepare ⟨10, 0, 3, 5⟩ 2 6 = (⟨10, 0, 3, 5⟩, 2, ⟨0, 0⟩) :=
  ⟨(claim8.2.2.1 ⟨10, 0, 3, 5⟩ 4 2 (by decide) (by decide)).trans (by decide),
    claim8.2.2.2 ⟨10, 0, 3, 5⟩ 2 6 (by decide)⟩

/-- C10: on every reachable state in which `write < read`, the watermark
satisfies `write < watermark` and `read ≤ watermark` (so it is non-zero and
the modulo in `consume`'s wrapped branch is by a positive number), and the
read position produced by any `consume` stays below the watermark. -/
theorem claim10 : ∀ (cap : Nat) (s : State), Reach cap s →
    s.cb.write < s.cb.read →
    s.cb.write < s.cb.watermark ∧ s.cb.read ≤ s.cb.watermark ∧
    0 < s.cb.watermark ∧
    ∀ amount : Nat,
      (buffer_reader.consume s.cb amount).read < s.cb.watermark := by
  intro cap s hre hw
  obtain ⟨hcap, h1, h2, h3⟩ := reach_inv cap s hre
  obtain ⟨k1, k2, k3⟩ := h3 hw
  refine ⟨by omega, k2, by omega, ?_⟩
  intro a
  rw [consume_wrapped s.cb a hw]
  show (s.cb.read + detail.min (s.cb.watermark - s.cb.read + s.cb.write) a) %
      s.cb.watermark < s.cb.watermark
  exact Nat.mod_lt _ (by omega)

/-- Witness for C10 at the reachable wrapped state (capacity 10) reached by
`prepare 7; commit 7; consume 7; prepare 5; commit 5`: read 7, write 5,
watermark 7. -/
theorem claim10_witness :
    (exec (initState 10) [Op.prepare 7, Op.commit 7, Op.consume 7,
        Op.prepare 5, Op.commit 5]).cb.write <
      (exec (initState 10) [Op.prepare 7, Op.commit 7, Op.consume 7,
        Op.prepare 5, Op.commit 5]).cb.watermark ∧
    (buffer_reader.consume
        (exec (initState 10) [Op.prepare 7, Op.commit 7, Op.consume 7,
          Op.prepare 5, Op.commit 5]).cb 3).read <
      (exec (initState 10) [Op.prepare 7, Op.commit 7, Op.consume 7,
        Op.prepare 5, Op.commit 5]).cb.watermark := by
  have h := claim10 10 _
    ⟨[Op.prepare 7, Op.commit 7, Op.consume 7, Op.prepare 5, Op.commit 5],
      rfl⟩ (by decide)
  exact ⟨h.1, h.2.2.2 3⟩

end ubip
